import Mathlib

/-!
Verification of the FFmpeg-sandbox filter-chain builders, preset loader and
process executor against their natural-language specification.

The Python source is embedded shallowly: Python floats become `ℚ` (every
arithmetic operation the embedded code performs on them — division by 2,
multiplication by 100, comparison against decimal literals — is exact in
IEEE binary64 for the values involved, so `ℚ` is a faithful model), Python
ints become `ℤ`, strings stay `String`, a `while` loop becomes a
fuel-indexed function whose `none` result means the loop has not finished
within the given fuel, and a raised exception becomes a distinguished
constructor of the result type.
-/

set_option maxRecDepth 100000

/-- The result of Python `",".join(filters)`. -/
def joinComma : List String → String
  | [] => ""
  | [s] => s
  | s :: rest => s ++ "," ++ joinComma rest

/-- Decimal digit character for `n % 10`. -/
def digitChar (n : ℕ) : Char := Char.ofNat (48 + n % 10)

/-- The `k` least-significant decimal digits of `n`, most significant first,
left-padded with zeros (renders `n` exactly when `n < 10 ^ k`). -/
def natDigitsPadded (n k : ℕ) : String :=
  String.mk ((List.range k).map (fun i => digitChar (n / 10 ^ (k - 1 - i))))

/-- Python `repr`/f-string rendering of a float, modelled exactly for
rationals with a terminating decimal expansion of at most 17 fractional
digits (every float the embedded claims evaluate is of this form: `repr`
of such a float is its exact shortest decimal, with `.0` appended for
integral values). Other rationals are rendered as `num/den`; no claim
depends on their rendering, only on its non-emptiness. -/
def ratRepr (q : ℚ) : String :=
  let sign := if q < 0 then "-" else ""
  let a := |q|
  let i := (Rat.floor a).toNat
  let frac := a - Rat.floor a
  match (List.range 18).find? (fun k => (frac * 10 ^ k).den = 1) with
  | some 0 => sign ++ toString i ++ ".0"
  | some k => sign ++ toString i ++ "." ++ natDigitsPadded (frac * 10 ^ k).num.toNat k
  | none => sign ++ toString q.num ++ "/" ++ toString q.den

/-- First `while` loop of `build_speed_filter` (filters_audio.py:20-22):
`while remaining > 2.0: filters.append("atempo=2.0"); remaining /= 2.0`.
Fuel-indexed; `none` means the loop has not exited within `fuel` iterations. -/
def speedLoopAbove : ℕ → ℚ → Option (List String × ℚ)
  | 0, r => if 2 < r then none else some ([], r)
  | fuel + 1, r =>
    if 2 < r then
      match speedLoopAbove fuel (r / 2) with
      | none => none
      | some (fs, r2) => some ("atempo=2.0" :: fs, r2)
    else some ([], r)

/-- Second `while` loop of `build_speed_filter` (filters_audio.py:23-25):
`while remaining < 0.5: filters.append("atempo=0.5"); remaining /= 0.5`. -/
def speedLoopBelow : ℕ → ℚ → Option (List String × ℚ)
  | 0, r => if r < 1 / 2 then none else some ([], r)
  | fuel + 1, r =>
    if r < 1 / 2 then
      match speedLoopBelow fuel (r / (1 / 2)) with
      | none => none
      | some (fs, r2) => some ("atempo=0.5" :: fs, r2)
    else some ([], r)

/-- The list `filters` accumulated by `build_speed_filter`
(filters_audio.py:13-29): early return for speed 1.0, the two chaining
loops, then the final remainder fragment when the remainder lies in
[0.5, 2.0] and differs from 1.0. -/
def speedFragments (fuel : ℕ) (speed : ℚ) : Option (List String) :=
  if speed = 1 then some []
  else
    match speedLoopAbove fuel speed with
    | none => none
    | some (fs1, r1) =>
      match speedLoopBelow fuel r1 with
      | none => none
      | some (fs2, r2) =>
        some (fs1 ++ fs2 ++
          (if 1 / 2 ≤ r2 ∧ r2 ≤ 2 ∧ r2 ≠ 1 then ["atempo=" ++ ratRepr r2] else []))

/-- `build_speed_filter` (filters_audio.py:6-31): the comma-join of the
accumulated fragments; `none` propagates loop non-termination. -/
def build_speed_filter (fuel : ℕ) (speed : ℚ) : Option String :=
  (speedFragments fuel speed).map joinComma

/-- Python `int(q)` on a float: truncation toward zero. -/
def pyInt (q : ℚ) : ℤ :=
  if 0 ≤ q then Rat.floor q else -Rat.floor (-q)

/-- Python `math.pow(2.0, x)`: exact when `x` is an integer, which is the only
case the embedded claims evaluate (semitones that are multiples of 12); for
non-integer `x` the double value is irrational, outside `ℚ`, and `2 ^ ⌊x⌋`
stands in as a positive surrogate on which no claim depends. -/
def pow2 (x : ℚ) : ℚ :=
  if 0 ≤ Rat.floor x then (2 : ℚ) ^ (Rat.floor x).toNat
  else 1 / (2 : ℚ) ^ (-Rat.floor x).toNat

/-- Round-half-even of a rational to an integer, as IEEE/Python `round` does. -/
def roundHalfEven (q : ℚ) : ℤ :=
  let f := Rat.floor q
  let frac := q - f
  if frac < 1 / 2 then f
  else if 1 / 2 < frac then f + 1
  else if f % 2 = 0 then f else f + 1

/-- Python `f"{q:.6f}"`: fixed-point rendering with exactly six digits after
the decimal point (round-half-even at the sixth digit). -/
def format6f (q : ℚ) : String :=
  let n := roundHalfEven (q * 1000000)
  let a := n.natAbs
  (if n < 0 then "-" else "") ++ toString (a / 1000000) ++ "." ++ natDigitsPadded (a % 1000000) 6

/-- The `new_rate = int(sample_rate * ratio)` computation of
`build_pitch_filter` (filters_audio.py:49). -/
def pitchNewRate (semitones : ℚ) (sample_rate : ℤ) : ℤ :=
  pyInt ((sample_rate : ℚ) * pow2 (semitones / 12))

/-- `build_pitch_filter` (filters_audio.py:34-52): `asetrate` shifts the
pitch by the ratio `2^(semitones/12)`, `atempo` compensates the speed by the
reciprocal (formatted to six decimal places), `aresample` restores the base
sample rate. Empty string when `semitones == 0.0`. -/
def build_pitch_filter (semitones : ℚ) (sample_rate : ℤ) : String :=
  if semitones = 0 then ""
  else
    let ratio := pow2 (semitones / 12)
    let tempo_compensation := 1 / ratio
    "asetrate=" ++ toString (pitchNewRate semitones sample_rate) ++
      ",atempo=" ++ format6f tempo_compensation ++
      ",aresample=" ++ toString sample_rate

/-- `build_noise_reduction_filter` (filters_audio.py:55-66): empty when the
reduction fraction is exactly 0.0, otherwise an `afftdn` fragment with the
floor passed through and the fraction scaled by 100, unclamped. -/
def build_noise_reduction_filter (noise_floor noise_reduction : ℚ) : String :=
  if noise_reduction = 0 then ""
  else "afftdn=nf=" ++ ratRepr noise_floor ++ ":nr=" ++ ratRepr (noise_reduction * 100)

/-- `build_compressor_filter` (filters_audio.py:69-92): empty when the
compression ratio is at most 1.0. -/
def build_compressor_filter (threshold ratio attack release makeup : ℚ) : String :=
  if ratio ≤ 1 then ""
  else
    "acompressor=threshold=" ++ ratRepr threshold ++ "dB:ratio=" ++ ratRepr ratio ++
      ":attack=" ++ ratRepr attack ++ ":release=" ++ ratRepr release ++
      ":makeup=" ++ ratRepr makeup ++ "dB"

/-- Numeric value of a list of decimal digit characters. -/
def digitsVal (cs : List Char) : ℕ :=
  cs.foldl (fun a c => a * 10 + (c.toNat - 48)) 0

/-- ASCII whitespace, the characters Python `str.strip()` removes in the
strings this embedding handles. -/
def isSpaceChar (c : Char) : Bool :=
  c = ' ' ∨ c = '\t' ∨ c = '\n' ∨ c = '\r'

/-- Python `s.strip()`. -/
def pyStrip (s : String) : String :=
  String.mk (((s.data.dropWhile isSpaceChar).reverse.dropWhile isSpaceChar).reverse)

/-- Python `s.split("|")` on the character list of `s`; the accumulator holds
the current field reversed. -/
def splitPipeAux : List Char → List Char → List String
  | [], acc => [String.mk acc.reverse]
  | c :: rest, acc =>
    if c = '|' then String.mk acc.reverse :: splitPipeAux rest []
    else splitPipeAux rest (c :: acc)

/-- Python `s.split("|")`. -/
def splitPipe (s : String) : List String :=
  splitPipeAux s.data []

/-- Python `float(s)` on a plain decimal literal: optional surrounding
whitespace, optional sign, then digits with an optional fractional part
(`"1"`, `"1.5"`, `"1."`, `".5"`). `none` models the `ValueError` raised on
anything else; the scientific/`inf`/`nan` spellings Python also accepts never
occur in the decay lists this embedding parses. -/
def parseFloatQ (s : String) : Option ℚ :=
  let t := (pyStrip s).data
  let signAndRest : ℚ × List Char :=
    match t with
    | '-' :: rest => (-1, rest)
    | '+' :: rest => (1, rest)
    | _ => (1, t)
  let sign := signAndRest.1
  let u := signAndRest.2
  let intPart := u.takeWhile Char.isDigit
  let rest := u.dropWhile Char.isDigit
  match rest with
  | [] => if intPart = [] then none else some (sign * digitsVal intPart)
  | '.' :: frac =>
    if frac.all Char.isDigit ∧ (intPart ≠ [] ∨ frac ≠ []) then
      some (sign * ((digitsVal intPart : ℚ) + (digitsVal frac : ℚ) / 10 ^ frac.length))
    else none
  | _ => none

/-- The decay-list parse in `build_audio_filter_chain` (filter_chain.py:52):
`[float(d) for d in decays.split("|") if d.strip()]`; `none` models the
`ValueError` escaping from `float`. -/
def parseDecays (decays : String) : Option (List ℚ) :=
  ((splitPipe decays).filter (fun d => pyStrip d ≠ "")).mapM parseFloatQ

/-- `build_eq_filter` (filters_video.py:4-14): empty only when brightness,
contrast and saturation are simultaneously at identity (0.0, 1.0, 1.0). -/
def build_eq_filter (brightness contrast saturation : ℚ) : String :=
  if brightness = 0 ∧ contrast = 1 ∧ saturation = 1 then ""
  else
    "eq=brightness=" ++ ratRepr brightness ++ ":contrast=" ++ ratRepr contrast ++
      ":saturation=" ++ ratRepr saturation

/-- `build_blur_filter` (filters_video.py:17-22). -/
def build_blur_filter (sigma : ℚ) : String :=
  if sigma ≤ 0 then "" else "gblur=sigma=" ++ ratRepr sigma

/-- `build_sharpen_filter` (filters_video.py:25-34). -/
def build_sharpen_filter (amount : ℚ) : String :=
  if amount ≤ 0 then "" else "unsharp=5:5:" ++ ratRepr amount ++ ":5:5:0"

/-- `build_transform_filter` (filters_video.py:37-39): passes the string
through unchanged (the Python `if filter_str else ""` is the identity on
strings since the empty string is its own else-result). -/
def build_transform_filter (filter_str : String) : String :=
  if filter_str ≠ "" then filter_str else ""

/-- Result of a call to `build_audio_filter_chain`: `value` is the Python
return value (`none` = Python `None`), `valueError` the `ValueError` raised
by `float()` on a malformed decay entry, and `fuelOut` means the speed loop
did not terminate within the supplied fuel. -/
inductive AudioChainResult
  | fuelOut
  | valueError
  | value (s : Option String)
deriving DecidableEq, Repr

/-- The echo block of `build_audio_filter_chain` (filter_chain.py:50-54):
when both `delays` and `decays` are non-empty strings, parse the decay list
and emit the `aecho` fragment iff some decay is positive; `none` propagates
the `ValueError` of the parse. -/
def echoFrags (delays decays : String) : Option (List String) :=
  if delays ≠ "" ∧ decays ≠ "" then
    match parseDecays decays with
    | none => none
    | some decay_values =>
      some (if ∃ d ∈ decay_values, (0 : ℚ) < d then
              ["aecho=0.8:0.85:" ++ delays ++ ":" ++ decays]
            else [])
  else some []

/-- The common return step of both chain builders (filter_chain.py:78,122):
`return ",".join(filters) if filters else None`. -/
def chainReturn (filters : List String) : Option String :=
  if filters ≠ [] then some (joinComma filters) else none

/-- `build_audio_filter_chain` (filter_chain.py:17-78): collects the
non-empty fragments in the fixed order volume, highpass, lowpass, echo,
speed, pitch, noise reduction, compressor, joins them with commas, and
returns Python `None` when no fragment was produced. -/
def build_audio_filter_chain (fuel : ℕ) (volume : ℚ) (highpass lowpass : ℤ)
    (delays decays : String)
    (speed pitch_semitones noise_floor noise_reduction : ℚ)
    (comp_threshold comp_ratio comp_attack comp_release comp_makeup : ℚ) :
    AudioChainResult :=
  match echoFrags delays decays with
  | none => .valueError
  | some echo_frags =>
    match speedFragments fuel speed with
    | none => .fuelOut
    | some speed_frags =>
      let speed_filter := joinComma speed_frags
      let pitch_filter := build_pitch_filter pitch_semitones 44100
      let nr_filter := build_noise_reduction_filter noise_floor noise_reduction
      let comp_filter :=
        build_compressor_filter comp_threshold comp_ratio comp_attack comp_release comp_makeup
      let filters :=
        (if volume ≠ 1 then ["volume=" ++ ratRepr volume] else []) ++
        (if 20 < highpass then ["highpass=f=" ++ toString highpass] else []) ++
        (if lowpass < 20000 then ["lowpass=f=" ++ toString lowpass] else []) ++
        echo_frags ++
        (if speed_filter ≠ "" then [speed_filter] else []) ++
        (if pitch_filter ≠ "" then [pitch_filter] else []) ++
        (if nr_filter ≠ "" then [nr_filter] else []) ++
        (if comp_filter ≠ "" then [comp_filter] else [])
      .value (chainReturn filters)

/-- Result of a call to `build_video_filter_chain`: `zeroDivisionError`
models the exception raised by `1 / speed` when `speed` is 0.0 (and not 1.0);
`value` is the Python return value, `none` = `None`. -/
inductive VideoChainResult
  | zeroDivisionError
  | value (s : Option String)
deriving DecidableEq, Repr

/-- `build_video_filter_chain` (filter_chain.py:81-122): eq, blur, sharpen,
transform, then the `setpts` speed fragment last. -/
def build_video_filter_chain (brightness contrast saturation : ℚ)
    (blur_sigma sharpen_amount : ℚ) (transform : String) (speed : ℚ) :
    VideoChainResult :=
  let eq_filter := build_eq_filter brightness contrast saturation
  let blur_filter := build_blur_filter blur_sigma
  let sharpen_filter := build_sharpen_filter sharpen_amount
  let transform_filter := build_transform_filter transform
  let base :=
    (if eq_filter ≠ "" then [eq_filter] else []) ++
    (if blur_filter ≠ "" then [blur_filter] else []) ++
    (if sharpen_filter ≠ "" then [sharpen_filter] else []) ++
    (if transform_filter ≠ "" then [transform_filter] else [])
  if speed ≠ 1 then
    if speed = 0 then .zeroDivisionError
    else
      let filters := base ++ ["setpts=" ++ ratRepr (1 / speed) ++ "*PTS"]
      .value (chainReturn filters)
  else
    .value (chainReturn base)

/-- Outcome of one `subprocess.run` invocation, supplied by the environment:
either the process completed with an exit code and captured streams, or the
timeout expired. -/
inductive ProcOutcome
  | completed (returncode : ℤ) (stdout stderr : String)
  | timedOut
deriving DecidableEq, Repr

/-- Result of `run_ffmpeg_command`: a returned `CompletedProcess` or a raised
`FFmpegError` with its `message` and `stderr` attributes (ffmpeg_executor.py:9-15:
the constructor stores both; `stderr` defaults to the empty string). -/
inductive ExecResult
  | ok (returncode : ℤ) (stdout stderr : String)
  | ffmpegError (message : String) (stderr : String)
deriving DecidableEq, Repr

/-- Python rendering of the `timeout: int | None` argument inside the
timeout message f-string. -/
def timeoutRepr : Option ℤ → String
  | none => "None"
  | some n => toString n

/-- `run_ffmpeg_command` (ffmpeg_executor.py:18-55). The function invokes the
subprocess exactly once; `attempts k` is the outcome the environment would
give the k-th invocation, and only `attempts 0` is ever consumed. A non-zero
exit code raises `FFmpegError(f"{description} failed", stderr=result.stderr)`
with the captured stderr passed through whole; a timeout raises
`FFmpegError(f"{description} timed out after {timeout}s")` with default
(empty) stderr. -/
def run_ffmpeg_command (attempts : ℕ → ProcOutcome) (description : String)
    (timeout : Option ℤ) : ExecResult :=
  match attempts 0 with
  | .completed returncode out err =>
    if returncode ≠ 0 then .ffmpegError (description ++ " failed") err
    else .ok returncode out err
  | .timedOut =>
    .ffmpegError (description ++ " timed out after " ++ timeoutRepr timeout ++ "s") ""

/-- The stderr payload carried by a raised `FFmpegError` (0 when the call
returned normally). -/
def ExecResult.errStderrLength : ExecResult → ℕ
  | .ok _ _ _ => 0
  | .ffmpegError _ e => e.length

/-- A raw YAML scalar as the preset loader sees it after `yaml.safe_load`:
a string or a number (ints and floats both load as numbers here; every
numeric field of the config models is a float). -/
inductive PyVal
  | pyStr (s : String)
  | pyNum (q : ℚ)
deriving DecidableEq, Repr

/-- Lookup of a required string field during pydantic validation of a config
model: present-and-string succeeds, anything else is a `ValidationError`. -/
def getStrField (data : List (String × PyVal)) (key : String) : Option String :=
  match data.lookup key with
  | some (.pyStr s) => some s
  | _ => none

/-- Lookup of a required float field during pydantic validation: a number
succeeds, a numeric decimal string is coerced (pydantic lax mode), anything
else is a `ValidationError`. -/
def getNumField (data : List (String × PyVal)) (key : String) : Option ℚ :=
  match data.lookup key with
  | some (.pyNum q) => some q
  | some (.pyStr s) => parseFloatQ s
  | none => none

/-- `SpeedConfig` (models.py:244-248): the declared schema is exactly
`name: str`, `description: str`, `speed: float` — no `Field` bounds of any
kind accompany the float. -/
structure SpeedConfig where
  name : String
  description : String
  speed : ℚ
deriving DecidableEq, Repr

/-- Pydantic validation of `SpeedConfig(**preset_data)` against the schema
declared in models.py:244-248: the three required fields must be present
with the right types; extra keys are ignored (pydantic default) and no
range constraint exists to check. `none` models a raised `ValidationError`. -/
def validateSpeedConfig (data : List (String × PyVal)) : Option SpeedConfig :=
  match getStrField data "name", getStrField data "description",
      getNumField data "speed" with
  | some n, some d, some s => some ⟨n, d, s⟩
  | _, _, _ => none

/-- Result of loading one system-preset category: either the load aborted on
a `ValidationError` (carrying the offending preset key) or every entry
loaded. -/
inductive SystemLoadResult
  | aborted (key : String)
  | loaded (presets : List (String × SpeedConfig))
deriving DecidableEq, Repr

/-- The system-preset category loop of `load_presets` (presets.py:88-95):
validate each entry in order and re-raise the first `ValidationError`,
aborting the whole load. -/
def loadSystemCategory (validate : List (String × PyVal) → Option SpeedConfig)
    (raw : List (String × List (String × PyVal))) : SystemLoadResult :=
  match raw with
  | [] => .loaded []
  | (key, data) :: rest =>
    match validate data with
    | none => .aborted key
    | some cfg =>
      match loadSystemCategory validate rest with
      | .aborted e => .aborted e
      | .loaded tail => .loaded ((key, cfg) :: tail)

/-- The user-preset category loop of `load_user_shortcuts`
(user_shortcuts.py:42-53): a `ValidationError` is logged and the entry
skipped (`continue`), never aborting the load. -/
def loadUserCategory (validate : List (String × PyVal) → Option SpeedConfig)
    (raw : List (String × List (String × PyVal))) : List (String × SpeedConfig) :=
  raw.filterMap (fun kd => (validate kd.2).map (fun c => (kd.1, c)))

/-- Parse of a decimal integer, optional leading minus (as `int(s)` does on
the progress-protocol values). -/
def parseIntQ (s : String) : Option ℤ :=
  match s.data with
  | '-' :: rest => if rest ≠ [] ∧ rest.all Char.isDigit then some (-(digitsVal rest : ℤ)) else none
  | cs => if cs ≠ [] ∧ cs.all Char.isDigit then some (digitsVal cs : ℤ) else none

/-- Modelled from the spec: the `ProgressEvent` record of §3 of the
specification, produced by the streaming executor `process_video_with_progress`,
which routers/audio.py:69 imports from `app.services.processor` but whose
definition is not part of the source tree. -/
inductive ProgressEvent
  | progress (percent_complete : ℚ)
  | log (line : String)
  | complete (output_file : String)
  | error (message : String)
deriving DecidableEq, Repr

/-- Modelled from the spec: recognition of the machine-readable progress
marker `out_time_ms=<int>` in a stdout line of the external engine (§6). -/
def parseOutTime (line : String) : Option ℤ :=
  if "out_time_ms=".data.isPrefixOf line.data then parseIntQ (String.mk (line.data.drop 12))
  else none

/-- Modelled from the spec: the stdout-consuming loop of the streaming
executor (§4.3), absent from the source tree. Each `out_time_ms` line yields
a percent `min(100, position/total_duration)` (as a percentage), emitted only
when it exceeds the last emitted percent so the published sequence is
strictly increasing; `progress=end` is the terminal marker and produces no
event of its own; all other lines are surfaced as opaque log events. -/
def progressStream (total_duration_ms : ℤ) : List String → ℚ → List ProgressEvent
  | [], _ => []
  | line :: rest, last =>
    match parseOutTime line with
    | some pos =>
      let pct := min 100 ((pos : ℚ) * 100 / (total_duration_ms : ℚ))
      if last < pct then .progress pct :: progressStream total_duration_ms rest pct
      else progressStream total_duration_ms rest last
    | none =>
      if line = "progress=end" then progressStream total_duration_ms rest last
      else .log line :: progressStream total_duration_ms rest last

/-- Modelled from the spec: `process_video_with_progress` (§4.3 streaming
variant), absent from the source tree — only its caller routers/audio.py:1287
is present. It consumes the engine's stdout lines, then emits exactly one
terminal event: `complete` carrying the output path when the exit code is 0,
otherwise `error` carrying the accumulated stderr of the drain thread. -/
def process_video_with_progress (total_duration_ms : ℤ) (lines : List String)
    (exit_code : ℤ) (output_file stderr_buf : String) : List ProgressEvent :=
  progressStream total_duration_ms lines 0 ++
    (if exit_code = 0 then [.complete output_file] else [.error stderr_buf])

/-- The percent payloads of the progress events of a stream, in order. -/
def progressPercents (events : List ProgressEvent) : List ℚ :=
  events.filterMap (fun e => match e with | .progress p => some p | _ => none)

/-- Whether an event is terminal (complete or error). -/
def isTerminalEvent : ProgressEvent → Bool
  | .complete _ => true
  | .error _ => true
  | _ => false

lemma string_data_eq_empty {a : String} (h : a.data = []) : a = "" := by
  cases a
  simp_all

lemma append_ne_empty_left {a : String} (b : String) (h : a ≠ "") : a ++ b ≠ "" := by
  intro e
  apply h
  apply string_data_eq_empty
  have : (a ++ b).data = [] := by rw [e]
  rw [String.data_append] at this
  exact (List.append_eq_nil.mp this).1

lemma mk_cons_ne_empty (c : Char) (cs : List Char) : String.mk (c :: cs) ≠ "" := by
  intro e
  have : (String.mk (c :: cs)).data = ("" : String).data := by rw [e]
  simp at this

lemma joinComma_ne_empty {l : List String} (hne : l ≠ [])
    (h : ∀ s ∈ l, s ≠ "") : joinComma l ≠ "" := by
  match l with
  | [] => exact absurd rfl hne
  | [s] => exact h s (by simp)
  | s :: t :: rest =>
    show s ++ "," ++ joinComma (t :: rest) ≠ ""
    exact append_ne_empty_left _ (append_ne_empty_left _ (h s (by simp)))

lemma speedLoopAbove_pass {fuel : ℕ} {r : ℚ} (h : ¬ 2 < r) :
    speedLoopAbove fuel r = some ([], r) := by
  cases fuel with
  | zero => simp only [speedLoopAbove]; rw [if_neg h]
  | succ f => simp only [speedLoopAbove]; rw [if_neg h]

lemma speedLoopBelow_pass {fuel : ℕ} {r : ℚ} (h : ¬ r < 1 / 2) :
    speedLoopBelow fuel r = some ([], r) := by
  cases fuel with
  | zero => simp only [speedLoopBelow]; rw [if_neg h]
  | succ f => simp only [speedLoopBelow]; rw [if_neg h]

lemma speedLoopAbove_spec :
    ∀ (n fuel : ℕ) (r : ℚ), (∀ m, m < n → 2 < r / 2 ^ m) → r / 2 ^ n ≤ 2 → n ≤ fuel →
      speedLoopAbove fuel r = some (List.replicate n "atempo=2.0", r / 2 ^ n) := by
  intro n
  induction n with
  | zero =>
    intro fuel r _ hin _
    rw [pow_zero, div_one] at hin
    rw [pow_zero, div_one, List.replicate_zero]
    exact speedLoopAbove_pass (not_lt.mpr hin)
  | succ k ih =>
    intro fuel r hmin hin hfuel
    have h0 : 2 < r := by simpa using hmin 0 (Nat.succ_pos k)
    cases fuel with
    | zero => omega
    | succ f =>
      have hrec := ih f (r / 2)
        (fun m hm => by rw [div_div, ← pow_succ']; exact hmin (m + 1) (by omega))
        (by rw [div_div, ← pow_succ']; exact hin)
        (by omega)
      simp only [speedLoopAbove, if_pos h0, hrec]
      rw [div_div, ← pow_succ', List.replicate_succ]

lemma speedLoopBelow_spec :
    ∀ (n fuel : ℕ) (r : ℚ), (∀ m, m < n → r * 2 ^ m < 1 / 2) → 1 / 2 ≤ r * 2 ^ n → n ≤ fuel →
      speedLoopBelow fuel r = some (List.replicate n "atempo=0.5", r * 2 ^ n) := by
  intro n
  induction n with
  | zero =>
    intro fuel r _ hin _
    rw [pow_zero, mul_one] at hin
    rw [pow_zero, mul_one, List.replicate_zero]
    exact speedLoopBelow_pass (not_lt.mpr hin)
  | succ k ih =>
    intro fuel r hmin hin hfuel
    have h0 : r < 1 / 2 := by simpa using hmin 0 (Nat.succ_pos k)
    have hdiv : r / (1 / 2) = r * 2 := by field_simp
    cases fuel with
    | zero => omega
    | succ f =>
      have hrec := ih f (r * 2)
        (fun m hm => by
          rw [mul_assoc, ← pow_succ']
          exact hmin (m + 1) (by omega))
        (by rw [mul_assoc, ← pow_succ']; exact hin)
        (by omega)
      simp only [speedLoopBelow, if_pos h0, hdiv, hrec]
      rw [mul_assoc, ← pow_succ', List.replicate_succ]

lemma speedFragments_above {r : ℚ} {n fuel : ℕ} (hr : 2 < r)
    (hin : r / 2 ^ n ≤ 2) (hmin : ∀ m, m < n → 2 < r / 2 ^ m) (hfuel : n ≤ fuel) :
    1 < r / 2 ^ n ∧
      speedFragments fuel r =
        some (List.replicate n "atempo=2.0" ++ ["atempo=" ++ ratRepr (r / 2 ^ n)]) := by
  have hne1 : r ≠ 1 := by intro e; rw [e] at hr; norm_num at hr
  obtain ⟨k, rfl⟩ : ∃ k, n = k + 1 := by
    cases n with
    | zero => rw [pow_zero, div_one] at hin; exact absurd hin (not_le.mpr hr)
    | succ k => exact ⟨k, rfl⟩
  have hk : 2 < r / 2 ^ k := hmin k (by omega)
  have heq : r / 2 ^ (k + 1) = r / 2 ^ k / 2 := by rw [div_div, ← pow_succ]
  have h1 : 1 < r / 2 ^ (k + 1) := by rw [heq]; linarith
  have habove := speedLoopAbove_spec (k + 1) fuel r hmin hin hfuel
  have hbelow : speedLoopBelow fuel (r / 2 ^ (k + 1)) = some ([], r / 2 ^ (k + 1)) :=
    speedLoopBelow_pass (by intro h; linarith)
  refine ⟨h1, ?_⟩
  simp only [speedFragments, if_neg hne1, habove, hbelow]
  rw [if_pos ⟨by linarith, hin, by intro e; rw [e] at h1; norm_num at h1⟩]
  simp

lemma speedFragments_below {r : ℚ} {n fuel : ℕ} (hr : r < 1 / 2)
    (hin : 1 / 2 ≤ r * 2 ^ n) (hmin : ∀ m, m < n → r * 2 ^ m < 1 / 2) (hfuel : n ≤ fuel) :
    r * 2 ^ n < 1 ∧
      speedFragments fuel r =
        some (List.replicate n "atempo=0.5" ++ ["atempo=" ++ ratRepr (r * 2 ^ n)]) := by
  have hne1 : r ≠ 1 := by intro e; rw [e] at hr; norm_num at hr
  obtain ⟨k, rfl⟩ : ∃ k, n = k + 1 := by
    cases n with
    | zero => rw [pow_zero, mul_one] at hin; exact absurd hin (not_le.mpr hr)
    | succ k => exact ⟨k, rfl⟩
  have hk : r * 2 ^ k < 1 / 2 := hmin k (by omega)
  have h1 : r * 2 ^ (k + 1) < 1 := by
    rw [pow_succ, ← mul_assoc]
    linarith [hk]
  have habove : speedLoopAbove fuel r = some ([], r) :=
    speedLoopAbove_pass (by intro h; linarith)
  have hbelow := speedLoopBelow_spec (k + 1) fuel r hmin hin hfuel
  refine ⟨h1, ?_⟩
  simp only [speedFragments, if_neg hne1, habove, hbelow]
  rw [if_pos ⟨hin, by linarith, by intro e; rw [e] at h1; norm_num at h1⟩]
  simp

lemma speedFragments_in_range (fuel : ℕ) {r : ℚ} (h1 : 1 / 2 ≤ r) (h2 : r ≤ 2) :
    speedFragments fuel r =
      some (if r = 1 then [] else ["atempo=" ++ ratRepr r]) := by
  by_cases he : r = 1
  · simp [speedFragments, he]
  · have habove : speedLoopAbove fuel r = some ([], r) :=
      speedLoopAbove_pass (not_lt.mpr h2)
    have hbelow : speedLoopBelow fuel r = some ([], r) :=
      speedLoopBelow_pass (not_lt.mpr h1)
    simp only [speedFragments, if_neg he, habove, hbelow]
    rw [if_pos ⟨h1, h2, he⟩]
    simp [he]

lemma speedLoopBelow_stuck : ∀ (fuel : ℕ) {r : ℚ}, r ≤ 0 → speedLoopBelow fuel r = none := by
  intro fuel
  induction fuel with
  | zero =>
    intro r hr
    simp only [speedLoopBelow]
    rw [if_pos (by linarith)]
  | succ f ih =>
    intro r hr
    have hdiv : r / (1 / 2) = r * 2 := by field_simp
    simp only [speedLoopBelow]
    rw [if_pos (by linarith), hdiv, ih (by linarith)]

lemma speedFragments_nonpos {fuel : ℕ} {r : ℚ} (hr : r ≤ 0) :
    speedFragments fuel r = none := by
  have hne1 : r ≠ 1 := by intro e; rw [e] at hr; norm_num at hr
  have habove : speedLoopAbove fuel r = some ([], r) :=
    speedLoopAbove_pass (by intro h; linarith)
  simp only [speedFragments, if_neg hne1, habove, speedLoopBelow_stuck fuel hr]

lemma speedFragments_pos_terminates {r : ℚ} (hr : 0 < r) :
    ∃ fuel, (speedFragments fuel r).isSome := by
  rcases le_or_lt r 2 with h2 | h2
  · rcases le_or_lt (1 / 2) r with h1 | h1
    · exact ⟨0, by rw [speedFragments_in_range 0 h1 h2]; rfl⟩
    · have hex : ∃ n : ℕ, 1 / 2 ≤ r * 2 ^ n := by
        obtain ⟨n, hn⟩ := pow_unbounded_of_one_lt ((1 / 2) / r) one_lt_two
        have h' : 1 / 2 < 2 ^ n * r := (div_lt_iff₀ hr).mp hn
        rw [mul_comm] at h'
        exact ⟨n, le_of_lt h'⟩
      have hin : 1 / 2 ≤ r * 2 ^ Nat.find hex := Nat.find_spec hex
      have hmin : ∀ m, m < Nat.find hex → r * 2 ^ m < 1 / 2 :=
        fun m hm => not_le.mp (Nat.find_min hex hm)
      obtain ⟨-, hfr⟩ := speedFragments_below h1 hin hmin (le_refl (Nat.find hex))
      exact ⟨Nat.find hex, by rw [hfr]; rfl⟩
  · have hex : ∃ n : ℕ, r / 2 ^ n ≤ 2 := by
      obtain ⟨n, hn⟩ := pow_unbounded_of_one_lt r one_lt_two
      have hp : (0:ℚ) < 2 ^ n := by positivity
      have h' : r / 2 ^ n < 1 := (div_lt_one hp).mpr hn
      exact ⟨n, by linarith⟩
    have hin : r / 2 ^ Nat.find hex ≤ 2 := Nat.find_spec hex
    have hmin : ∀ m, m < Nat.find hex → 2 < r / 2 ^ m :=
      fun m hm => not_le.mp (Nat.find_min hex hm)
    obtain ⟨-, hfr⟩ := speedFragments_above h2 hin hmin (le_refl (Nat.find hex))
    exact ⟨Nat.find hex, by rw [hfr]; rfl⟩

lemma speedLoopAbove_mem :
    ∀ (fuel : ℕ) (r : ℚ) (fs : List String) (r2 : ℚ),
      speedLoopAbove fuel r = some (fs, r2) → ∀ s ∈ fs, s = "atempo=2.0" := by
  intro fuel
  induction fuel with
  | zero =>
    intro r fs r2 h s hs
    simp only [speedLoopAbove] at h
    split at h
    · simp at h
    · simp at h
      rw [h.1] at hs
      simp at hs
  | succ f ih =>
    intro r fs r2 h s hs
    simp only [speedLoopAbove] at h
    split at h
    · match hrec : speedLoopAbove f (r / 2) with
      | none => rw [hrec] at h; simp at h
      | some (fs1, r1) =>
        rw [hrec] at h
        simp at h
        rw [← h.1] at hs
        rcases List.mem_cons.mp hs with he | hm
        · exact he
        · exact ih (r / 2) fs1 r1 hrec s hm
    · simp at h
      rw [h.1] at hs
      simp at hs

lemma speedLoopBelow_mem :
    ∀ (fuel : ℕ) (r : ℚ) (fs : List String) (r2 : ℚ),
      speedLoopBelow fuel r = some (fs, r2) → ∀ s ∈ fs, s = "atempo=0.5" := by
  intro fuel
  induction fuel with
  | zero =>
    intro r fs r2 h s hs
    simp only [speedLoopBelow] at h
    split at h
    · simp at h
    · simp at h
      rw [h.1] at hs
      simp at hs
  | succ f ih =>
    intro r fs r2 h s hs
    simp only [speedLoopBelow] at h
    split at h
    · match hrec : speedLoopBelow f (r / (1 / 2)) with
      | none => rw [hrec] at h; simp at h
      | some (fs1, r1) =>
        rw [hrec] at h
        simp at h
        rw [← h.1] at hs
        rcases List.mem_cons.mp hs with he | hm
        · exact he
        · exact ih (r / (1 / 2)) fs1 r1 hrec s hm
    · simp at h
      rw [h.1] at hs
      simp at hs

lemma speedFragments_eq {fuel : ℕ} {r r1 r2 : ℚ} {fs1 fs2 : List String}
    (hne : r ≠ 1)
    (h1 : speedLoopAbove fuel r = some (fs1, r1))
    (h2 : speedLoopBelow fuel r1 = some (fs2, r2)) :
    speedFragments fuel r =
      some (fs1 ++ fs2 ++
        (if 1 / 2 ≤ r2 ∧ r2 ≤ 2 ∧ r2 ≠ 1 then ["atempo=" ++ ratRepr r2] else [])) := by
  simp only [speedFragments, if_neg hne, h1, h2]

lemma speedFragments_mem {fuel : ℕ} {r : ℚ} {fs : List String}
    (h : speedFragments fuel r = some fs) : ∀ s ∈ fs, s ≠ "" := by
  intro s hs
  by_cases hne : r = 1
  · rw [hne] at h
    simp [speedFragments] at h
    rw [h] at hs
    simp at hs
  · cases h1 : speedLoopAbove fuel r with
    | none =>
      simp only [speedFragments, if_neg hne, h1] at h
      exact absurd h (by simp)
    | some p1 =>
      obtain ⟨fs1, r1⟩ := p1
      cases h2 : speedLoopBelow fuel r1 with
      | none =>
        simp only [speedFragments, if_neg hne, h1, h2] at h
        exact absurd h (by simp)
      | some p2 =>
        obtain ⟨fs2, r2⟩ := p2
        rw [speedFragments_eq hne h1 h2] at h
        rw [Option.some.injEq] at h
        rw [← h] at hs
        rcases List.mem_append.mp hs with hm | hm
        · rcases List.mem_append.mp hm with hm1 | hm2
          · rw [speedLoopAbove_mem fuel r fs1 r1 h1 s hm1]
            exact mk_cons_ne_empty _ _
          · rw [speedLoopBelow_mem fuel r1 fs2 r2 h2 s hm2]
            exact mk_cons_ne_empty _ _
        · split at hm
          · simp at hm
            rw [hm]
            exact append_ne_empty_left _ (mk_cons_ne_empty _ _)
          · simp at hm

unseal Rat.mul Rat.add Rat.sub Rat.inv in
/-- C1: for every speed ratio outside [0.5, 2.0] that n halvings (ratios
above 2.0) or n doublings (ratios below 0.5) bring into [0.5, 2.0] — n being
minimal, i.e. the number of boundary divisions needed — `build_speed_filter`
produces exactly the n boundary fragments followed by one remainder
fragment, so the fragment count is n plus one iff the remainder differs from
1.0 (the remainder provably never equals 1.0); in particular speed 4.0
yields exactly 2 fragments and speed 3.0 yields exactly 2 fragments,
`atempo=2.0` then `atempo=1.5`. -/
theorem build_speed_filter_outside_range_spec :
    (∀ (r : ℚ) (n fuel : ℕ), 2 < r → r / 2 ^ n ≤ 2 → (∀ m, m < n → 2 < r / 2 ^ m) →
        n ≤ fuel →
      r / 2 ^ n ≠ 1 ∧
      speedFragments fuel r =
        some (List.replicate n "atempo=2.0" ++ ["atempo=" ++ ratRepr (r / 2 ^ n)]) ∧
      (speedFragments fuel r).map List.length = some (n + 1)) ∧
    (∀ (r : ℚ) (n fuel : ℕ), r < 1 / 2 → 1 / 2 ≤ r * 2 ^ n → (∀ m, m < n → r * 2 ^ m < 1 / 2) →
        n ≤ fuel →
      r * 2 ^ n ≠ 1 ∧
      speedFragments fuel r =
        some (List.replicate n "atempo=0.5" ++ ["atempo=" ++ ratRepr (r * 2 ^ n)]) ∧
      (speedFragments fuel r).map List.length = some (n + 1)) ∧
    build_speed_filter 8 4 = some "atempo=2.0,atempo=2.0" ∧
    (speedFragments 8 4).map List.length = some 2 ∧
    build_speed_filter 8 3 = some "atempo=2.0,atempo=1.5" ∧
    (speedFragments 8 3).map List.length = some 2 := by
  refine ⟨?_, ?_, by decide, by decide, by decide, by decide⟩
  · intro r n fuel hr hin hmin hfuel
    obtain ⟨h1, hfr⟩ := speedFragments_above hr hin hmin hfuel
    refine ⟨ne_of_gt h1, hfr, ?_⟩
    rw [hfr]
    simp
  · intro r n fuel hr hin hmin hfuel
    obtain ⟨h1, hfr⟩ := speedFragments_below hr hin hmin hfuel
    refine ⟨ne_of_lt h1, hfr, ?_⟩
    rw [hfr]
    simp

unseal Rat.mul Rat.add Rat.sub Rat.inv in
/-- Witness for C1: the general parts applied at the concrete ratios 3.0
(one halving, remainder 1.5) and 0.25 (one doubling, remainder 0.5). -/
theorem build_speed_filter_outside_range_spec_witness :
    (2 < (3:ℚ) ∧ (3:ℚ) / 2 ^ 1 ≤ 2 ∧
      (3:ℚ) / 2 ^ 1 ≠ 1 ∧
      speedFragments 1 3 =
        some (List.replicate 1 "atempo=2.0" ++ ["atempo=" ++ ratRepr ((3:ℚ) / 2 ^ 1)]) ∧
      (speedFragments 1 3).map List.length = some 2) ∧
    ((1:ℚ) / 4 < 1 / 2 ∧ 1 / 2 ≤ (1:ℚ) / 4 * 2 ^ 1 ∧
      (1:ℚ) / 4 * 2 ^ 1 ≠ 1 ∧
      speedFragments 1 (1 / 4) =
        some (List.replicate 1 "atempo=0.5" ++ ["atempo=" ++ ratRepr ((1:ℚ) / 4 * 2 ^ 1)]) ∧
      (speedFragments 1 (1 / 4)).map List.length = some 2) := by
  have h1 := build_speed_filter_outside_range_spec.1 3 1 1 (by norm_num) (by norm_num)
    (by intro m hm; have hm0 : m = 0 := Nat.lt_one_iff.mp hm; rw [hm0]; norm_num) (le_refl 1)
  have h2 := build_speed_filter_outside_range_spec.2.1 (1 / 4) 1 1 (by norm_num) (by norm_num)
    (by intro m hm; have hm0 : m = 0 := Nat.lt_one_iff.mp hm; rw [hm0]; norm_num) (le_refl 1)
  exact ⟨⟨by norm_num, by norm_num, h1⟩, ⟨by norm_num, by norm_num, h2⟩⟩

unseal Rat.mul Rat.add Rat.sub Rat.inv in
/-- C2: for every speed ratio in [0.5, 2.0], `build_speed_filter` returns
the empty string iff the ratio is exactly 1.0, and otherwise a single
`atempo` fragment (a one-element fragment list, no comma-joined chain). -/
theorem build_speed_filter_in_range_spec :
    ∀ (fuel : ℕ) (r : ℚ), 1 / 2 ≤ r → r ≤ 2 →
      (build_speed_filter fuel r = some "" ↔ r = 1) ∧
      (r ≠ 1 → speedFragments fuel r = some ["atempo=" ++ ratRepr r] ∧
        build_speed_filter fuel r = some ("atempo=" ++ ratRepr r)) := by
  intro fuel r h1 h2
  have hfr := speedFragments_in_range fuel h1 h2
  constructor
  · constructor
    · intro he
      by_contra hne
      rw [if_neg hne] at hfr
      have hmap : build_speed_filter fuel r = some ("atempo=" ++ ratRepr r) := by
        rw [build_speed_filter, hfr]
        rfl
      rw [hmap] at he
      exact append_ne_empty_left _ (by decide) (Option.some.inj he)
    · intro he
      rw [if_pos he] at hfr
      rw [build_speed_filter, hfr]
      rfl
  · intro hne
    rw [if_neg hne] at hfr
    exact ⟨hfr, by rw [build_speed_filter, hfr]; rfl⟩

/-- Witness for C2: ratio 1.5 gives exactly the single fragment
`atempo=1.5`, and the returned string is empty iff the ratio is 1. -/
theorem build_speed_filter_in_range_spec_witness :
    (1:ℚ) / 2 ≤ 3 / 2 ∧ (3:ℚ) / 2 ≤ 2 ∧
    (build_speed_filter 8 (3 / 2) = some "" ↔ (3:ℚ) / 2 = 1) ∧
    speedFragments 8 (3 / 2) = some ["atempo=" ++ ratRepr ((3:ℚ) / 2)] := by
  have h := build_speed_filter_in_range_spec 8 (3 / 2) (by norm_num) (by norm_num)
  exact ⟨by norm_num, by norm_num, h.1, (h.2 (by norm_num)).1⟩

/-- C10: `build_speed_filter` terminates (some fuel suffices) for every
strictly positive speed, and for speed 0 or any negative speed the doubling
loop never brings the remainder into [0.5, 2.0], so no amount of fuel makes
the function return. -/
theorem build_speed_filter_termination :
    (∀ r : ℚ, 0 < r → ∃ fuel, (build_speed_filter fuel r).isSome) ∧
    (∀ (r : ℚ) (fuel : ℕ), r ≤ 0 → build_speed_filter fuel r = none) := by
  constructor
  · intro r hr
    obtain ⟨fuel, hf⟩ := speedFragments_pos_terminates hr
    refine ⟨fuel, ?_⟩
    rw [build_speed_filter]
    cases hx : speedFragments fuel r with
    | none => rw [hx] at hf; simp at hf
    | some l => rfl
  · intro r fuel hr
    rw [build_speed_filter, speedFragments_nonpos hr]
    rfl

/-- Witness for C10: speed 3 terminates, speed 0 never does. -/
theorem build_speed_filter_termination_witness :
    (0 < (3:ℚ) ∧ ∃ fuel, (build_speed_filter fuel 3).isSome) ∧
    ((0:ℚ) ≤ 0 ∧ build_speed_filter 5 0 = none) := by
  exact ⟨⟨by norm_num, build_speed_filter_termination.1 3 (by norm_num)⟩,
    ⟨le_refl 0, build_speed_filter_termination.2 0 5 (le_refl 0)⟩⟩

unseal Rat.mul Rat.add Rat.sub Rat.inv in
/-- C5: `build_pitch_filter(0.0)` is the empty string; at +12 semitones the
computed resample rate is exactly twice the 44100 Hz base rate and at -12
semitones exactly half of it; the tempo-compensation factor in the emitted
fragment carries exactly six decimal places (`0.500000`, `2.000000`; in
general `format6f` always emits exactly six digits after its decimal
point). -/
theorem build_pitch_filter_spec :
    build_pitch_filter 0 44100 = "" ∧
    pitchNewRate 12 44100 = 2 * 44100 ∧
    2 * pitchNewRate (-12) 44100 = 44100 ∧
    build_pitch_filter 12 44100 = "asetrate=88200,atempo=0.500000,aresample=44100" ∧
    build_pitch_filter (-12) 44100 = "asetrate=22050,atempo=2.000000,aresample=44100" ∧
    format6f (1 / 2) = "0.500000" ∧ format6f 2 = "2.000000" ∧
    (∀ q : ℚ, ∃ a : String,
      format6f q = a ++ ("." ++ natDigitsPadded ((roundHalfEven (q * 1000000)).natAbs % 1000000) 6) ∧
      (natDigitsPadded ((roundHalfEven (q * 1000000)).natAbs % 1000000) 6).length = 6) := by
  refine ⟨by decide, by decide, by decide, by decide, by decide, by decide, by decide, ?_⟩
  intro q
  refine ⟨(if roundHalfEven (q * 1000000) < 0 then "-" else "") ++
    toString ((roundHalfEven (q * 1000000)).natAbs / 1000000), ?_, ?_⟩
  · rw [format6f, String.append_assoc]
  · rw [natDigitsPadded]
    show (List.map _ (List.range 6)).length = 6
    rw [List.length_map, List.length_range]

/-- Witness for C5: the six-decimal-place decomposition at the concrete
tempo-compensation factor 1/2. -/
theorem build_pitch_filter_spec_witness :
    ∃ a : String,
      format6f (1 / 2) =
        a ++ ("." ++ natDigitsPadded ((roundHalfEven ((1 / 2 : ℚ) * 1000000)).natAbs % 1000000) 6) ∧
      (natDigitsPadded ((roundHalfEven ((1 / 2 : ℚ) * 1000000)).natAbs % 1000000) 6).length = 6 :=
  build_pitch_filter_spec.2.2.2.2.2.2.2 (1 / 2)

unseal Rat.mul Rat.add Rat.sub Rat.inv in
/-- C6: `build_noise_reduction_filter` is empty iff the reduction fraction
is exactly 0.0; otherwise the emitted `afftdn` fragment carries the floor
unchanged and the fraction scaled by exactly 100 with no clamping, so for
floor -40 and reduction 0.5 the fragment contains the substrings `nr=50`
and `nf=-40`. -/
theorem build_noise_reduction_filter_spec :
    (∀ noise_floor noise_reduction : ℚ,
      (build_noise_reduction_filter noise_floor noise_reduction = "" ↔ noise_reduction = 0)) ∧
    (∀ noise_floor noise_reduction : ℚ, noise_reduction ≠ 0 →
      build_noise_reduction_filter noise_floor noise_reduction =
        "afftdn=nf=" ++ ratRepr noise_floor ++ ":nr=" ++ ratRepr (noise_reduction * 100)) ∧
    build_noise_reduction_filter (-40) (1 / 2) = "afftdn=nf=-40.0:nr=50.0" ∧
    (∃ a b : String, build_noise_reduction_filter (-40) (1 / 2) = a ++ "nr=50" ++ b) ∧
    (∃ a b : String, build_noise_reduction_filter (-40) (1 / 2) = a ++ "nf=-40" ++ b) := by
  refine ⟨?_, ?_, by decide, ⟨"afftdn=nf=-40.0:", ".0", by decide⟩,
    ⟨"afftdn=", ".0:nr=50.0", by decide⟩⟩
  · intro nf nr
    constructor
    · intro he
      by_contra hne
      rw [build_noise_reduction_filter, if_neg hne] at he
      exact append_ne_empty_left _
        (append_ne_empty_left _ (append_ne_empty_left _ (by decide))) he
    · intro he
      rw [build_noise_reduction_filter, if_pos he]
  · intro nf nr hne
    rw [build_noise_reduction_filter, if_neg hne]

/-- Witness for C6: the exact-scaling clause applied at floor -30 and
reduction 1/4. -/
theorem build_noise_reduction_filter_spec_witness :
    (1 / 4 : ℚ) ≠ 0 ∧
    build_noise_reduction_filter (-30) (1 / 4) =
      "afftdn=nf=" ++ ratRepr (-30) ++ ":nr=" ++ ratRepr ((1 / 4 : ℚ) * 100) :=
  ⟨by norm_num, build_noise_reduction_filter_spec.2.1 (-30) (1 / 4) (by norm_num)⟩

lemma mem_cond_singleton {c : Prop} [Decidable c] {a s : String}
    (h : s ∈ (if c then [a] else ([] : List String))) : s = a ∧ c := by
  split at h
  · next hc => exact ⟨by simpa using h, hc⟩
  · simp at h

lemma echoFrags_mem {delays decays : String} {l : List String}
    (h : echoFrags delays decays = some l) : ∀ s ∈ l, s ≠ "" := by
  intro s hs
  rw [echoFrags] at h
  split at h
  · cases hp : parseDecays decays with
    | none => rw [hp] at h; exact absurd h (by simp)
    | some ds =>
      rw [hp] at h
      simp only [Option.some.injEq] at h
      rw [← h] at hs
      obtain ⟨he, -⟩ := mem_cond_singleton hs
      rw [he]
      exact append_ne_empty_left _
        (append_ne_empty_left _ (append_ne_empty_left _ (by decide)))
  · simp only [Option.some.injEq] at h
    rw [← h] at hs
    simp at hs

lemma chainReturn_ne_some_empty {l : List String} (h : ∀ s ∈ l, s ≠ "") :
    chainReturn l ≠ some "" := by
  rw [chainReturn]
  split
  · next hne => intro he; exact joinComma_ne_empty hne h (Option.some.inj he)
  · simp

unseal Rat.mul Rat.add Rat.sub Rat.inv in
/-- C4: neither chain builder ever returns the empty string: with no active
fragment (in particular at the all-default parameters) they return the
absent value `none`, and any returned string is non-empty. -/
theorem filter_chains_never_empty_string :
    (∀ (fuel : ℕ) (volume : ℚ) (highpass lowpass : ℤ) (delays decays : String)
        (speed ps nf nr ct cr ca crel cm : ℚ),
      build_audio_filter_chain fuel volume highpass lowpass delays decays
          speed ps nf nr ct cr ca crel cm ≠ .value (some "")) ∧
    build_audio_filter_chain 0 1 20 20000 "" "" 1 0 (-25) 0 0 1 20 250 0 = .value none ∧
    (∀ (brightness contrast saturation blur_sigma sharpen_amount : ℚ)
        (transform : String) (speed : ℚ),
      build_video_filter_chain brightness contrast saturation blur_sigma
          sharpen_amount transform speed ≠ .value (some "")) ∧
    build_video_filter_chain 0 1 1 0 0 "" 1 = .value none := by
  refine ⟨?_, by decide, ?_, by decide⟩
  · intro fuel volume highpass lowpass delays decays speed ps nf nr ct cr ca crel cm he
    rw [build_audio_filter_chain] at he
    cases h1 : echoFrags delays decays with
    | none => rw [h1] at he; simp at he
    | some echo_frags =>
      rw [h1] at he
      cases h2 : speedFragments fuel speed with
      | none => rw [h2] at he; simp at he
      | some speed_frags =>
        rw [h2] at he
        simp only [AudioChainResult.value.injEq] at he
        refine chainReturn_ne_some_empty ?_ he
        intro s hs
        simp only [List.mem_append] at hs
        rcases hs with ((((((hs1 | hs2) | hs3) | hs4) | hs5) | hs6) | hs7) | hs8
        · obtain ⟨he1, -⟩ := mem_cond_singleton hs1
          rw [he1]
          exact append_ne_empty_left _ (by decide)
        · obtain ⟨he2, -⟩ := mem_cond_singleton hs2
          rw [he2]
          exact append_ne_empty_left _ (by decide)
        · obtain ⟨he3, -⟩ := mem_cond_singleton hs3
          rw [he3]
          exact append_ne_empty_left _ (by decide)
        · exact echoFrags_mem h1 s hs4
        · obtain ⟨he5, hc5⟩ := mem_cond_singleton hs5
          rw [he5]
          exact hc5
        · obtain ⟨he6, hc6⟩ := mem_cond_singleton hs6
          rw [he6]
          exact hc6
        · obtain ⟨he7, hc7⟩ := mem_cond_singleton hs7
          rw [he7]
          exact hc7
        · obtain ⟨he8, hc8⟩ := mem_cond_singleton hs8
          rw [he8]
          exact hc8
  · intro brightness contrast saturation blur_sigma sharpen_amount transform speed he
    rw [build_video_filter_chain] at he
    by_cases hsp : speed ≠ 1
    · rw [if_pos hsp] at he
      by_cases hz : speed = 0
      · rw [if_pos hz] at he
        simp at he
      · rw [if_neg hz] at he
        simp only [VideoChainResult.value.injEq] at he
        refine chainReturn_ne_some_empty ?_ he
        intro s hs
        simp only [List.mem_append] at hs
        rcases hs with (((hs1 | hs2) | hs3) | hs4) | hs5
        · obtain ⟨he1, hc1⟩ := mem_cond_singleton hs1
          rw [he1]
          exact hc1
        · obtain ⟨he2, hc2⟩ := mem_cond_singleton hs2
          rw [he2]
          exact hc2
        · obtain ⟨he3, hc3⟩ := mem_cond_singleton hs3
          rw [he3]
          exact hc3
        · obtain ⟨he4, hc4⟩ := mem_cond_singleton hs4
          rw [he4]
          exact hc4
        · have hx : s = "setpts=" ++ ratRepr (1 / speed) ++ "*PTS" := by simpa using hs5
          rw [hx]
          exact append_ne_empty_left _ (append_ne_empty_left _ (by decide))
    · rw [if_neg hsp] at he
      simp only [VideoChainResult.value.injEq] at he
      refine chainReturn_ne_some_empty ?_ he
      intro s hs
      simp only [List.mem_append] at hs
      rcases hs with ((hs1 | hs2) | hs3) | hs4
      · obtain ⟨he1, hc1⟩ := mem_cond_singleton hs1
        rw [he1]
        exact hc1
      · obtain ⟨he2, hc2⟩ := mem_cond_singleton hs2
        rw [he2]
        exact hc2
      · obtain ⟨he3, hc3⟩ := mem_cond_singleton hs3
        rw [he3]
        exact hc3
      · obtain ⟨he4, hc4⟩ := mem_cond_singleton hs4
        rw [he4]
        exact hc4

unseal Rat.mul Rat.add Rat.sub Rat.inv in
/-- Witness for C4: the never-empty clauses applied at concrete active
parameter assignments. -/
theorem filter_chains_never_empty_string_witness :
    build_audio_filter_chain 8 2 100 5000 "20|40" "0.4|0.2" 2 12 (-40) (1 / 2)
        (-18) 4 10 150 4 ≠ .value (some "") ∧
    build_video_filter_chain (1 / 5) 1 1 3 0 "hflip" 2 ≠ .value (some "") :=
  ⟨filter_chains_never_empty_string.1 8 2 100 5000 "20|40" "0.4|0.2" 2 12 (-40) (1 / 2)
      (-18) 4 10 150 4,
    filter_chains_never_empty_string.2.2.1 (1 / 5) 1 1 3 0 "hflip" 2⟩

lemma echoFrags_active {delays decays : String} {ds : List ℚ}
    (hd : delays ≠ "") (hdc : decays ≠ "") (hp : parseDecays decays = some ds)
    (hx : ∃ d ∈ ds, (0:ℚ) < d) :
    echoFrags delays decays = some ["aecho=0.8:0.85:" ++ delays ++ ":" ++ decays] := by
  rw [echoFrags, if_pos ⟨hd, hdc⟩, hp]
  show some (if ∃ d ∈ ds, (0:ℚ) < d then
      ["aecho=0.8:0.85:" ++ delays ++ ":" ++ decays] else []) = _
  rw [if_pos hx]

lemma build_pitch_filter_ne {s : ℚ} (sr : ℤ) (h : s ≠ 0) :
    build_pitch_filter s sr ≠ "" := by
  intro he
  rw [build_pitch_filter, if_neg h] at he
  exact append_ne_empty_left _ (append_ne_empty_left _ (append_ne_empty_left _
    (append_ne_empty_left _ (append_ne_empty_left _ (by decide))))) he

lemma build_noise_reduction_filter_ne {nf nr : ℚ} (h : nr ≠ 0) :
    build_noise_reduction_filter nf nr ≠ "" := by
  intro he
  rw [build_noise_reduction_filter, if_neg h] at he
  exact append_ne_empty_left _
    (append_ne_empty_left _ (append_ne_empty_left _ (by decide))) he

lemma build_compressor_filter_ne {ct cr ca crel cm : ℚ} (h : 1 < cr) :
    build_compressor_filter ct cr ca crel cm ≠ "" := by
  intro he
  rw [build_compressor_filter, if_neg (not_le.mpr h)] at he
  exact append_ne_empty_left _ (append_ne_empty_left _ (append_ne_empty_left _
    (append_ne_empty_left _ (append_ne_empty_left _ (append_ne_empty_left _
      (append_ne_empty_left _ (append_ne_empty_left _ (append_ne_empty_left _
        (append_ne_empty_left _ (by decide)))))))))) he

/-- C3: whenever all seven audio effects are active (volume not 1, highpass
above 20, lowpass below 20000, an echo with a positive decay, a speed whose
loop produced fragments, a non-zero pitch shift, a non-zero noise reduction,
a compression ratio above 1), `build_audio_filter_chain` returns exactly the
comma-join of the fragments in the fixed order volume, highpass, lowpass,
echo, speed, pitch, noise reduction, compressor — so each fragment starts at
a smaller string index of the joined result than every later one. -/
theorem build_audio_filter_chain_order_spec :
    ∀ (fuel : ℕ) (volume : ℚ) (highpass lowpass : ℤ) (delays decays : String)
      (speed ps nf nr ct cr ca crel cm : ℚ) (ds : List ℚ) (sf : List String),
      volume ≠ 1 → 20 < highpass → lowpass < 20000 →
      delays ≠ "" → decays ≠ "" → parseDecays decays = some ds →
      (∃ d ∈ ds, (0:ℚ) < d) →
      speedFragments fuel speed = some sf → sf ≠ [] →
      ps ≠ 0 → nr ≠ 0 → 1 < cr →
      build_audio_filter_chain fuel volume highpass lowpass delays decays
          speed ps nf nr ct cr ca crel cm =
        .value (some (joinComma
          ["volume=" ++ ratRepr volume,
           "highpass=f=" ++ toString highpass,
           "lowpass=f=" ++ toString lowpass,
           "aecho=0.8:0.85:" ++ delays ++ ":" ++ decays,
           joinComma sf,
           build_pitch_filter ps 44100,
           build_noise_reduction_filter nf nr,
           build_compressor_filter ct cr ca crel cm])) := by
  intro fuel volume highpass lowpass delays decays speed ps nf nr ct cr ca crel cm ds sf
  intro hvol hhp hlp hd hdc hparse hex hsf hsfne hps hnr hcr
  have hecho := echoFrags_active hd hdc hparse hex
  have hspne : joinComma sf ≠ "" := joinComma_ne_empty hsfne (speedFragments_mem hsf)
  rw [build_audio_filter_chain, hecho, hsf]
  dsimp only
  rw [if_pos hvol, if_pos hhp, if_pos hlp, if_pos hspne,
    if_pos (build_pitch_filter_ne 44100 hps), if_pos (build_noise_reduction_filter_ne hnr),
    if_pos (build_compressor_filter_ne hcr), chainReturn]
  simp only [List.cons_append, List.nil_append, List.singleton_append, List.append_assoc]
  rw [if_pos (List.cons_ne_nil _ _)]

unseal Rat.mul Rat.add Rat.sub Rat.inv in
/-- Witness for C3: the full chain at a concrete assignment activating all
seven effects. -/
theorem build_audio_filter_chain_order_spec_witness :
    parseDecays "0.4|0.2" = some [2 / 5, 1 / 5] ∧
    (∃ d ∈ ([2 / 5, 1 / 5] : List ℚ), (0:ℚ) < d) ∧
    speedFragments 8 2 = some ["atempo=2.0"] ∧
    build_audio_filter_chain 8 2 100 5000 "20|40" "0.4|0.2" 2 12 (-40) (1 / 2)
        (-18) 4 10 150 4 =
      .value (some (joinComma
        ["volume=" ++ ratRepr 2,
         "highpass=f=" ++ toString (100 : ℤ),
         "lowpass=f=" ++ toString (5000 : ℤ),
         "aecho=0.8:0.85:" ++ "20|40" ++ ":" ++ "0.4|0.2",
         joinComma ["atempo=2.0"],
         build_pitch_filter 12 44100,
         build_noise_reduction_filter (-40) (1 / 2),
         build_compressor_filter (-18) 4 10 150 4])) :=
  ⟨by decide, by decide, by decide,
    build_audio_filter_chain_order_spec 8 2 100 5000 "20|40" "0.4|0.2" 2 12 (-40) (1 / 2)
      (-18) 4 10 150 4 [2 / 5, 1 / 5] ["atempo=2.0"]
      (by norm_num) (by norm_num) (by norm_num) (by decide) (by decide) (by decide)
      (by decide) (by decide) (by decide) (by norm_num) (by norm_num) (by norm_num)⟩

unseal Rat.mul Rat.add Rat.sub Rat.inv in
/-- C7 (code bug): the `SpeedConfig` schema declared in models.py carries no
numeric-range constraint, so the out-of-range entry speed=0.1 — which the
repository's own test suite (tests/test_models.py) requires to raise a
`ValidationError` mentioning "greater than or equal to 0.25" — validates
successfully, and a system-preset load containing it completes instead of
aborting; the fail-closed (abort on first invalid entry) and
skip-and-continue (user presets) machinery itself is present, as the last
two conjuncts show on an entry that is schema-invalid (wrong type). -/
theorem speed_config_out_of_range_accepted :
    validateSpeedConfig
        [("name", .pyStr "Too Slow"), ("description", .pyStr "Invalid"),
         ("speed", .pyNum (1 / 10))] =
      some ⟨"Too Slow", "Invalid", 1 / 10⟩ ∧
    loadSystemCategory validateSpeedConfig
        [("too_slow",
          [("name", .pyStr "Too Slow"), ("description", .pyStr "Invalid"),
           ("speed", .pyNum (1 / 10))])] =
      .loaded [("too_slow", ⟨"Too Slow", "Invalid", 1 / 10⟩)] ∧
    loadSystemCategory validateSpeedConfig
        [("ok", [("name", .pyStr "1x"), ("description", .pyStr "Normal"),
                 ("speed", .pyNum 1)]),
         ("bad", [("name", .pyNum 3), ("description", .pyStr "Wrong type"),
                  ("speed", .pyNum 1)])] =
      .aborted "bad" ∧
    loadUserCategory validateSpeedConfig
        [("bad", [("name", .pyNum 3), ("description", .pyStr "Wrong type"),
                  ("speed", .pyNum 1)]),
         ("ok", [("name", .pyStr "1x"), ("description", .pyStr "Normal"),
                 ("speed", .pyNum 1)])] =
      [("ok", ⟨"1x", "Normal", 1⟩)] := by
  refine ⟨by decide, by decide, by decide, by decide⟩

/-- C8 (amended): on a non-zero exit code `run_ffmpeg_command` raises a
typed `FFmpegError` carrying the full captured stderr with no truncation; on
timeout it raises an `FFmpegError` of the same exception type whose message
is provably distinct from the non-zero-exit message and whose stderr is
empty; and the result depends only on the first invocation outcome — the
function never retries. -/
theorem run_ffmpeg_error_paths :
    (∀ (attempts : ℕ → ProcOutcome) (description : String) (timeout : Option ℤ)
        (rc : ℤ) (out err : String),
      attempts 0 = .completed rc out err → rc ≠ 0 →
      run_ffmpeg_command attempts description timeout =
        .ffmpegError (description ++ " failed") err) ∧
    (∀ (attempts : ℕ → ProcOutcome) (description : String) (timeout : Option ℤ),
      attempts 0 = .timedOut →
      run_ffmpeg_command attempts description timeout =
        .ffmpegError
          (description ++ " timed out after " ++ timeoutRepr timeout ++ "s") "") ∧
    (∀ (description : String) (timeout : Option ℤ) (err : String),
      ExecResult.ffmpegError (description ++ " failed") err ≠
        .ffmpegError
          (description ++ " timed out after " ++ timeoutRepr timeout ++ "s") "") ∧
    (∀ (a b : ℕ → ProcOutcome) (description : String) (timeout : Option ℤ),
      a 0 = b 0 →
      run_ffmpeg_command a description timeout = run_ffmpeg_command b description timeout) := by
  refine ⟨?_, ?_, ?_, ?_⟩
  · intro attempts description timeout rc out err h hrc
    rw [run_ffmpeg_command, h]
    dsimp only
    rw [if_pos hrc]
  · intro attempts description timeout h
    rw [run_ffmpeg_command, h]
  · intro description timeout err he
    have hm := (ExecResult.ffmpegError.injEq _ _ _ _).mp he |>.1
    have hl := congrArg String.length hm
    rw [String.length_append, String.length_append, String.length_append,
      String.length_append] at hl
    have h7 : (" failed" : String).length = 7 := by decide
    have h17 : (" timed out after " : String).length = 17 := by decide
    have h1 : ("s" : String).length = 1 := by decide
    omega
  · intro a b description timeout h
    rw [run_ffmpeg_command, run_ffmpeg_command, h]

/-- Witness for C8: the failure and timeout paths at one concrete outcome
each, and independence from later attempts. -/
theorem run_ffmpeg_error_paths_witness :
    run_ffmpeg_command (fun _ => .completed 1 "" "boom") "FFmpeg operation" none =
      .ffmpegError ("FFmpeg operation" ++ " failed") "boom" ∧
    run_ffmpeg_command (fun _ => .timedOut) "FFmpeg operation" (some 30) =
      .ffmpegError
        ("FFmpeg operation" ++ " timed out after " ++ timeoutRepr (some 30) ++ "s") "" :=
  ⟨run_ffmpeg_error_paths.1 (fun _ => .completed 1 "" "boom") "FFmpeg operation" none
      1 "" "boom" rfl (by norm_num),
    run_ffmpeg_error_paths.2.1 (fun _ => .timedOut) "FFmpeg operation" (some 30) rfl⟩

/-- C8 counterexample: the claim that the raised execution error carries the
stderr truncated to a bounded length is false — no bound exists, because the
error carries the captured stderr whole. -/
theorem run_ffmpeg_stderr_unbounded :
    ¬ ∃ B : ℕ, ∀ stderr : String,
      (run_ffmpeg_command (fun _ => .completed 1 "" stderr)
          "FFmpeg operation" none).errStderrLength ≤ B := by
  rintro ⟨B, h⟩
  have hb := h (String.mk (List.replicate (B + 1) 'x'))
  have hrun : (run_ffmpeg_command (fun _ => .completed 1 ""
      (String.mk (List.replicate (B + 1) 'x'))) "FFmpeg operation" none).errStderrLength
      = B + 1 := by
    rw [run_ffmpeg_command]
    dsimp only
    rw [if_pos (by norm_num : (1:ℤ) ≠ 0)]
    show (String.mk (List.replicate (B + 1) 'x')).length = B + 1
    show (List.replicate (B + 1) 'x').length = B + 1
    rw [List.length_replicate]
  omega

lemma progressStream_chain (total : ℤ) :
    ∀ (lines : List String) (last : ℚ),
      List.Chain' (· < ·) (last :: progressPercents (progressStream total lines last)) := by
  intro lines
  induction lines with
  | nil => intro last; simp [progressStream, progressPercents]
  | cons l rest ih =>
    intro last
    rw [progressStream]
    cases hp : parseOutTime l with
    | some pos =>
      dsimp only
      split
      · next hlt =>
        simp only [progressPercents, List.filterMap_cons]
        rw [List.chain'_cons]
        exact ⟨hlt, ih _⟩
      · exact ih last
    | none =>
      dsimp only
      split
      · exact ih last
      · simp only [progressPercents, List.filterMap_cons]
        exact ih last

lemma progressStream_percent_mem (total : ℤ) :
    ∀ (lines : List String) (last p : ℚ),
      p ∈ progressPercents (progressStream total lines last) →
      ∃ pos : ℤ, some pos ∈ lines.map parseOutTime ∧
        p = min 100 ((pos : ℚ) * 100 / (total : ℚ)) := by
  intro lines
  induction lines with
  | nil => intro last p h; simp [progressStream, progressPercents] at h
  | cons l rest ih =>
    intro last p h
    rw [progressStream] at h
    cases hp : parseOutTime l with
    | some pos =>
      rw [hp] at h
      dsimp only at h
      split at h
      · simp only [progressPercents, List.filterMap_cons] at h
        rcases List.mem_cons.mp h with he | hm
        · exact ⟨pos, by rw [List.map_cons, hp]; exact List.mem_cons_self _ _, he⟩
        · obtain ⟨q, hq1, hq2⟩ := ih _ p hm
          exact ⟨q, by rw [List.map_cons]; exact List.mem_cons_of_mem _ hq1, hq2⟩
      · obtain ⟨q, hq1, hq2⟩ := ih _ p h
        exact ⟨q, by rw [List.map_cons]; exact List.mem_cons_of_mem _ hq1, hq2⟩
    | none =>
      rw [hp] at h
      dsimp only at h
      split at h
      · obtain ⟨q, hq1, hq2⟩ := ih _ p h
        exact ⟨q, by rw [List.map_cons]; exact List.mem_cons_of_mem _ hq1, hq2⟩
      · simp only [progressPercents, List.filterMap_cons] at h
        obtain ⟨q, hq1, hq2⟩ := ih _ p h
        exact ⟨q, by rw [List.map_cons]; exact List.mem_cons_of_mem _ hq1, hq2⟩

lemma progressStream_no_terminal (total : ℤ) :
    ∀ (lines : List String) (last : ℚ) (e : ProgressEvent),
      e ∈ progressStream total lines last → isTerminalEvent e = false := by
  intro lines
  induction lines with
  | nil => intro last e h; simp [progressStream] at h
  | cons l rest ih =>
    intro last e h
    rw [progressStream] at h
    cases hp : parseOutTime l with
    | some pos =>
      rw [hp] at h
      dsimp only at h
      split at h
      · rcases List.mem_cons.mp h with he | hm
        · rw [he]; rfl
        · exact ih _ e hm
      · exact ih _ e h
    | none =>
      rw [hp] at h
      dsimp only at h
      split at h
      · exact ih _ e h
      · rcases List.mem_cons.mp h with he | hm
        · rw [he]; rfl
        · exact ih _ e hm

/-- C9: within one streaming job the emitted progress percents form a
strictly increasing sequence, every emitted percent is
`min(100, position/total_duration)` (as a percentage) for some parsed
`out_time_ms` position of the job's stdout, exactly one terminal event is
emitted, and it is the last event: `complete` carrying the output path when
the exit code is 0, `error` otherwise. -/
theorem process_video_with_progress_spec :
    ∀ (total : ℤ) (lines : List String) (exit_code : ℤ) (output_file stderr_buf : String),
      List.Chain' (· < ·)
        (progressPercents
          (process_video_with_progress total lines exit_code output_file stderr_buf)) ∧
      (∀ p ∈ progressPercents
          (process_video_with_progress total lines exit_code output_file stderr_buf),
        ∃ pos : ℤ, some pos ∈ lines.map parseOutTime ∧
          p = min 100 ((pos : ℚ) * 100 / (total : ℚ))) ∧
      ((process_video_with_progress total lines exit_code output_file stderr_buf).filter
          (fun e => isTerminalEvent e)).length = 1 ∧
      (process_video_with_progress total lines exit_code output_file stderr_buf).getLast? =
        some (if exit_code = 0 then .complete output_file else .error stderr_buf) := by
  intro total lines exit_code output_file stderr_buf
  have hterm : progressPercents
      (if exit_code = 0 then [ProgressEvent.complete output_file]
       else [ProgressEvent.error stderr_buf]) = [] := by
    split
    · rfl
    · rfl
  refine ⟨?_, ?_, ?_, ?_⟩
  · rw [process_video_with_progress, progressPercents, List.filterMap_append]
    show List.Chain' (· < ·)
      (progressPercents (progressStream total lines 0) ++ progressPercents _)
    rw [hterm, List.append_nil]
    exact (progressStream_chain total lines 0).tail
  · intro p hp
    rw [process_video_with_progress, progressPercents, List.filterMap_append] at hp
    rcases List.mem_append.mp hp with hm | hm
    · exact progressStream_percent_mem total lines 0 p hm
    · rw [show (List.filterMap _ _ : List ℚ) = progressPercents
        (if exit_code = 0 then [ProgressEvent.complete output_file]
         else [ProgressEvent.error stderr_buf]) from rfl, hterm] at hm
      simp at hm
  · rw [process_video_with_progress, List.filter_append, List.length_append]
    have h1 : (progressStream total lines 0).filter (fun e => isTerminalEvent e) = [] := by
      rw [List.filter_eq_nil_iff]
      intro e he
      rw [progressStream_no_terminal total lines 0 e he]
      simp
    rw [h1]
    split
    · rfl
    · rfl
  · rw [process_video_with_progress]
    split
    · simp
    · simp

/-- Witness for C9: the specification applied to a concrete job. -/
theorem process_video_with_progress_spec_witness :
    List.Chain' (· < ·)
      (progressPercents
        (process_video_with_progress 6000 ["frame=1", "out_time_ms=3000", "out_time_ms=9000"]
          0 "out.mp4" "")) ∧
    ((process_video_with_progress 6000 ["frame=1", "out_time_ms=3000", "out_time_ms=9000"]
        0 "out.mp4" "").filter (fun e => isTerminalEvent e)).length = 1 :=
  ⟨(process_video_with_progress_spec 6000 ["frame=1", "out_time_ms=3000", "out_time_ms=9000"]
      0 "out.mp4" "").1,
    (process_video_with_progress_spec 6000 ["frame=1", "out_time_ms=3000", "out_time_ms=9000"]
      0 "out.mp4" "").2.2.1⟩
